import Mathlib

/-!
Verification of the piccy-picky image-triage tool (Rust) against its
natural-language specification.

The development shallowly embeds the relevant parts of the source:

* the adaptive layout computation of `main.rs` (lines 168-213) and the
  helper `calc_image_height_rows` (lines 401-418);
* the working-set bookkeeping of the review loop (`images.retain`,
  lines 318-337, and the batch-complete prompt, lines 365-391);
* the per-slot decision loop (lines 241-358);
* the terminal raw-mode acquire/release structure of `main` (lines 96-115,
  343-347, 378-382, 394-396);
* `term.rs`'s `abbreviate_path` (lines 47-75);
* the command-line argument loop of `main` (lines 33-53).

The Rust `f32` arithmetic of the layout engine is modelled exactly over `ℚ`:
every floating value the code computes (`aspect_ratio`, `height_px` before
truncation, `scale_factor`, the scaled width before truncation) is a ratio of
small machine integers, and the `as u32` casts are truncation toward zero of
nonnegative values, modelled as `Int.toNat ∘ Int.floor` (or `Nat` division
where both operands are natural numbers). Machine integers are modelled as
`ℕ`; the values involved are far below every relevant `u32`/`usize` bound,
and the saturating subtractions of the source are exactly `Nat` subtraction.
-/

namespace PiccyPicky

/-! ### Layout engine (main.rs lines 144-213, 401-418) -/

/-- Embeds `calc_image_height_rows` (main.rs lines 401-418) for an image whose
decoded dimensions are `origW × origH`: display width in pixels is
`display_width_chars * pixels_per_char_w`; the pixel height
`(display_width_px as f32 * aspect_ratio) as u32` truncates the exact value
`display_width_px * origH / origW` toward zero, which for natural inputs is
`Nat` division; the final `(height_px + pixels_per_char_h - 1) / pixels_per_char_h`
is the source's round-up to a whole character row. -/
def calc_image_height_rows (origW origH displayWidthChars pxPerCharW pxPerCharH : ℕ) : ℕ :=
  let displayWidthPx := displayWidthChars * pxPerCharW
  let heightPx := displayWidthPx * origH / origW
  (heightPx + pxPerCharH - 1) / pxPerCharH

/-- Terminal geometry as read in the main loop (main.rs lines 121-122):
character grid plus pixel dimensions. -/
structure TermGeometry where
  cols : ℕ
  rows : ℕ
  pxWidth : ℕ
  pxHeight : ℕ

/-- Embeds `pixels_per_char_w` (main.rs line 180): `px_width.max(1) / cols.max(1)`. -/
def pxPerCharW (g : TermGeometry) : ℕ := g.pxWidth.max 1 / g.cols.max 1

/-- Embeds `pixels_per_char_h` (main.rs line 179): `px_height.max(1) / rows.max(1)`. -/
def pxPerCharH (g : TermGeometry) : ℕ := g.pxHeight.max 1 / g.rows.max 1

/-- Embeds `available_width_cols` (main.rs line 174): `cols.saturating_sub(2)`. -/
def availableWidthCols (g : TermGeometry) : ℕ := g.cols - 2

/-- Embeds `available_rows` (main.rs line 181): `rows.saturating_sub(5)`. -/
def availableRows (g : TermGeometry) : ℕ := g.rows - 5

/-- Sum of the per-image pre-calculated heights for a batch, each image given
by its decoded `(origW, origH)` pair, at the stated display width. This is the
quantity the accumulation loop of main.rs lines 187-199 produces. -/
def totalHeightRows (imgs : List (ℕ × ℕ)) (displayWidthChars pw ph : ℕ) : ℕ :=
  (imgs.map (fun d => calc_image_height_rows d.1 d.2 displayWidthChars pw ph)).sum

/-- Result of the layout computation for one batch: the global scale factor,
the single scaled display width handed to the renderer, the per-image width
list actually used by the display loop, and the accumulated total height. -/
structure LayoutPlan where
  globalScaleFactor : ℚ
  scaledDisplayWidthChars : ℕ
  widths : List ℕ
  totalRows : ℕ

/-- Embeds the layout computation of the main loop (main.rs lines 168-213):
derive the per-character pixel metrics and the available space, accumulate
`total_height_rows` over the batch with a `+=` fold (lines 187-199), pick
`scale_factor` (lines 203-205), truncate `display_width_chars * scale_factor`
to `scaled_display_width_chars` (line 210), and hand that same width to
`load_and_display_image` for every image of the batch (lines 212-213). -/
def plan (g : TermGeometry) (imgs : List (ℕ × ℕ)) : LayoutPlan :=
  let displayWidthChars := availableWidthCols g
  let pw := pxPerCharW g
  let ph := pxPerCharH g
  let avRows := availableRows g
  let total := imgs.foldl
    (fun acc d => acc + calc_image_height_rows d.1 d.2 displayWidthChars pw ph) 0
  let scale : ℚ := if avRows < total then ((avRows : ℚ) / (total : ℚ)) * (49 / 50) else 1
  let scaledW := (⌊(displayWidthChars : ℚ) * scale⌋).toNat
  { globalScaleFactor := scale
    scaledDisplayWidthChars := scaledW
    widths := imgs.map (fun _ => scaledW)
    totalRows := total }

/-- Total height in rows the batch occupies when each image's height is
re-derived, with the same ceiling rounding, at the scaled display width the
plan actually hands to the renderer. -/
def rescaledTotalRows (g : TermGeometry) (imgs : List (ℕ × ℕ)) : ℕ :=
  totalHeightRows imgs (plan g imgs).scaledDisplayWidthChars (pxPerCharW g) (pxPerCharH g)

/-- Height formula exactly as the specification words it (spec step 3):
`heightRows = ceil(heightPx / pxPerCharH)` with `heightPx` the exact (not
truncated) value `availableWidthPx × (origH / origW)`. Stated over `ℚ` for
comparison with `calc_image_height_rows`. -/
def specHeightRows (origW origH displayWidthChars pxPerCharW pxPerCharH : ℕ) : ℤ :=
  ⌈(((displayWidthChars * pxPerCharW : ℕ) : ℚ) * ((origH : ℚ) / (origW : ℚ))) / (pxPerCharH : ℚ)⌉

/-! ### Helper lemmas -/

/-- The `total_height_rows += h` accumulation loop is summation. -/
lemma foldl_add_eq_sum (f : ℕ × ℕ → ℕ) (l : List (ℕ × ℕ)) (n : ℕ) :
    l.foldl (fun acc d => acc + f d) n = n + (l.map f).sum := by
  induction l generalizing n with
  | nil => simp
  | cons d t ih => simp [ih, Nat.add_assoc]

/-- Round-up natural division is the rational ceiling. -/
lemma add_pred_div_eq_ceil (a b : ℕ) (hb : 0 < b) :
    (((a + b - 1) / b : ℕ) : ℤ) = ⌈(a : ℚ) / (b : ℚ)⌉ := by
  have hbq : (0 : ℚ) < (b : ℚ) := by exact_mod_cast hb
  have hdm := Nat.div_add_mod (a + b - 1) b
  have hml := Nat.mod_lt (a + b - 1) hb
  have hub : (a + b - 1) / b * b ≤ a + b - 1 := Nat.div_mul_le_self _ _
  have hcm : (a + b - 1) / b * b = b * ((a + b - 1) / b) := Nat.mul_comm _ _
  have hlb : a ≤ (a + b - 1) / b * b := by omega
  have hub2 : (a + b - 1) / b * b < a + b := by omega
  rw [eq_comm, Int.ceil_eq_iff]
  constructor
  · rw [lt_div_iff₀ hbq, sub_mul, one_mul]
    have hq : (((((a + b - 1) / b : ℕ) : ℤ)) : ℚ) * (b : ℚ) < (a : ℚ) + (b : ℚ) := by
      exact_mod_cast hub2
    linarith
  · rw [div_le_iff₀ hbq]
    exact_mod_cast hlb

/-! ### Layout claims -/

/-- C2: the global scale factor is 1 when the computed total of needed rows is
at most the available rows, and `(availableRows / totalNeededRows) × 0.98`
when the total exceeds the available rows. -/
theorem c2_global_scale_factor_formula (g : TermGeometry) (imgs : List (ℕ × ℕ)) :
    (plan g imgs).globalScaleFactor =
      if totalHeightRows imgs (availableWidthCols g) (pxPerCharW g) (pxPerCharH g) ≤
          availableRows g then 1
      else ((availableRows g : ℚ) /
          (totalHeightRows imgs (availableWidthCols g) (pxPerCharW g) (pxPerCharH g) : ℚ)) *
        (49 / 50) := by
  have hf := foldl_add_eq_sum
    (fun d => calc_image_height_rows d.1 d.2 (availableWidthCols g) (pxPerCharW g) (pxPerCharH g))
    imgs 0
  simp only [plan, totalHeightRows, hf, Nat.zero_add]
  split_ifs with h1 h2 h2 <;> first | rfl | omega

/-- C3 counterexample: with a 3×6-cell, 3×6-px terminal and a batch of two
1×1-px images each pre-calculated image height is 1 row, and the total the
layout computation uses is 2 — not the 3 rows that the claimed
`sum + (count − 1)` inter-image padding formula gives. -/
theorem c3_no_padding_counterexample :
    (plan ⟨3, 6, 3, 6⟩ [(1, 1), (1, 1)]).totalRows ≠
      totalHeightRows [(1, 1), (1, 1)] (availableWidthCols ⟨3, 6, 3, 6⟩)
          (pxPerCharW ⟨3, 6, 3, 6⟩) (pxPerCharH ⟨3, 6, 3, 6⟩) +
        ([(1, 1), (1, 1)] : List (ℕ × ℕ)).length - 1 := by
  simp [plan, totalHeightRows, availableWidthCols, pxPerCharW, pxPerCharH,
    calc_image_height_rows]

/-- C3 amended: the total needed rows used by the layout computation is the
plain sum of the per-image pre-calculated heights; no `(count − 1)` rows of
inter-image padding are added. -/
theorem c3_total_is_plain_sum (g : TermGeometry) (imgs : List (ℕ × ℕ)) :
    (plan g imgs).totalRows =
      totalHeightRows imgs (availableWidthCols g) (pxPerCharW g) (pxPerCharH g) := by
  have hf := foldl_add_eq_sum
    (fun d => calc_image_height_rows d.1 d.2 (availableWidthCols g) (pxPerCharW g) (pxPerCharH g))
    imgs 0
  simp only [plan, totalHeightRows, hf, Nat.zero_add]

/-- C5: every image of the batch is handed the same display width, namely
`floor(availableWidthCols × globalScaleFactor)`. -/
theorem c5_uniform_display_width (g : TermGeometry) (imgs : List (ℕ × ℕ)) :
    (plan g imgs).widths =
      List.replicate imgs.length
        ((⌊(availableWidthCols g : ℚ) * (plan g imgs).globalScaleFactor⌋).toNat) := by
  simp only [plan]
  exact List.map_const' imgs _

/-- C1 fails on the code: at the terminal geometry 5 cols × 6 rows and
40×96 px (8×16 px per cell, availableWidthCols = 3, availableRows = 1), a
batch of two images of natural size 2×1 px needs 2 total rows, so the
scale-down branch fires (scale factor 49/100, scaled display width
⌊3 × 49/100⌋ = 1 char); re-deriving the two heights at that width with the
step-3 ceiling rounding still gives 1 + 1 = 2 rows, exceeding the 1 available
row. The 2% margin does not absorb the reapplied ceiling rounding. -/
theorem c1_rescaled_total_still_overflows :
    availableRows ⟨5, 6, 40, 96⟩ < (plan ⟨5, 6, 40, 96⟩ [(2, 1), (2, 1)]).totalRows ∧
      availableRows ⟨5, 6, 40, 96⟩ < rescaledTotalRows ⟨5, 6, 40, 96⟩ [(2, 1), (2, 1)] := by
  constructor
  · simp [plan, totalHeightRows, availableRows, availableWidthCols, pxPerCharW, pxPerCharH,
      calc_image_height_rows]
  · simp [rescaledTotalRows, totalHeightRows, plan, availableRows, availableWidthCols,
      pxPerCharW, pxPerCharH, calc_image_height_rows]
    norm_num

/-- C4 counterexample: for a 2×1-px image at display width 65 chars with
1×16-px cells, the exact pixel height is 65 × (1/2) = 32.5 px, whose
spec-stated ceiling `ceil(32.5 / 16)` is 3 rows, but the code truncates the
pixel height to 32 px (`as u32`) before the round-up division and returns
2 rows. -/
theorem c4_exact_ceiling_counterexample :
    (calc_image_height_rows 2 1 65 1 16 : ℤ) ≠ specHeightRows 2 1 65 1 16 := by
  have h1 : calc_image_height_rows 2 1 65 1 16 = 2 := by
    simp [calc_image_height_rows]
  have h2 : specHeightRows 2 1 65 1 16 = 3 := by
    simp only [specHeightRows]
    rw [show (((65 * 1 : ℕ) : ℚ) * ((1 : ℕ) / ((2 : ℕ) : ℚ)) / ((16 : ℕ) : ℚ)) = 2 + 1 / 32 by
      norm_num]
    norm_num [Int.ceil_eq_iff]
  rw [h1, h2]
  omega

/-- C4 amended: the pre-calculated height in rows is the ceiling of the
**truncated** pixel height over the cell height: the code first truncates
`availableWidthPx × (origH / origW)` to a whole pixel count (the `as u32`
cast, natural-number division below), and only then rounds up to the next
whole row. -/
theorem c4_height_rows_ceil_of_truncated_px (w h c pw ph : ℕ) (hph : 0 < ph) :
    (calc_image_height_rows w h c pw ph : ℤ) = ⌈((c * pw * h / w : ℕ) : ℚ) / (ph : ℚ)⌉ := by
  unfold calc_image_height_rows
  exact add_pred_div_eq_ceil _ _ hph

/-- C4 witness: a 4×3-px image at 78 chars × 8 px cells, 16-px rows:
624 × 3/4 = 468 px, and both sides give 30 rows. -/
theorem c4_height_rows_witness :
    0 < 16 ∧ (calc_image_height_rows 4 3 78 8 16 : ℤ) = ⌈((78 * 8 * 3 / 4 : ℕ) : ℚ) / ((16 : ℕ) : ℚ)⌉ :=
  ⟨by norm_num, c4_height_rows_ceil_of_truncated_px 4 3 78 8 16 (by norm_num)⟩

/-! ### Terminal raw-mode lifecycle (main.rs lines 96-117, 343-347, 378-382, 394-396) -/

/-- Observable terminal/process events on main's control paths. -/
inductive TermEvent where
  | enableRaw
  | disableRaw
  | exitProcess (code : ℕ)
  | enterReviewLoop
deriving DecidableEq

/-- Embeds the startup sequence of `main` after the path checks (main.rs lines
96-117): raw mode is enabled (line 96; the `catch_unwind` of lines 100-102
runs an empty closure immediately and registers no cleanup), the image scan
runs, and when the scan found no images the code prints a message and calls
`std::process::exit(0)` directly (lines 112-115) without touching the saved
termios; otherwise control enters the review loop (line 117). -/
def startupEvents (imagesFound : Bool) : List TermEvent :=
  [.enableRaw] ++ (if imagesFound then [.enterReviewLoop] else [.exitProcess 0])

/-- The process exit paths reachable once raw mode has been enabled. -/
inductive ExitPath where
  | quitDuringSlot
  | quitAtBatchPrompt
  | workingSetEmpty
  | noneDisplayed
  | noImagesFound
deriving DecidableEq

/-- Embeds the event sequence of each exit path of `main`:
`quitDuringSlot` is the decision-loop quit key (main.rs lines 343-347:
`disable_raw_mode` then `exit(0)`); `quitAtBatchPrompt` the quit key of the
continue/restart prompt (lines 378-382); `workingSetEmpty` the break at
line 127 followed by the restore at line 395; `noneDisplayed` the break at
line 229 followed by line 395; `noImagesFound` the startup path of
lines 112-115, which exits with no restore. -/
def exitEvents : ExitPath → List TermEvent
  | .quitDuringSlot => [.enableRaw, .disableRaw, .exitProcess 0]
  | .quitAtBatchPrompt => [.enableRaw, .disableRaw, .exitProcess 0]
  | .workingSetEmpty => [.enableRaw, .disableRaw]
  | .noneDisplayed => [.enableRaw, .disableRaw]
  | .noImagesFound => startupEvents false

/-- C6 fails on the code: on the no-images-found exit path the process exits
after enabling raw mode without ever restoring the original terminal mode,
while every other named exit path does restore it. (The `catch_unwind` at
main.rs lines 100-102 is an immediately-evaluated empty closure, so abnormal
termination is not guarded either.) -/
theorem c6_no_images_path_skips_restore :
    TermEvent.enableRaw ∈ exitEvents .noImagesFound ∧
      TermEvent.exitProcess 0 ∈ exitEvents .noImagesFound ∧
      TermEvent.disableRaw ∉ exitEvents .noImagesFound ∧
      TermEvent.disableRaw ∈ exitEvents .quitDuringSlot ∧
      TermEvent.disableRaw ∈ exitEvents .quitAtBatchPrompt ∧
      TermEvent.disableRaw ∈ exitEvents .workingSetEmpty ∧
      TermEvent.disableRaw ∈ exitEvents .noneDisplayed := by
  decide

/-! ### Working set bookkeeping (main.rs lines 318-337, 365-391) -/

/-- Embeds `images.retain(|p| p != path)` (main.rs lines 324 and 331): every
copy of the decided path is removed from the working set. Paths are modelled
as natural-number identifiers. -/
def removeFromWorkingSet (ws : List ℕ) (path : ℕ) : List ℕ :=
  ws.filter (fun q => q != path)

/-- Net effect of a completed batch on the working set: each slot is a path
paired with whether it received a Keep or Bin decision (`true`) or was left
undecided; decided slots run the `retain` of main.rs lines 324/331 in slot
order. -/
def applyBatchDecisions : List (ℕ × Bool) → List ℕ → List ℕ
  | [], ws => ws
  | (p, decided) :: rest, ws =>
      applyBatchDecisions rest (if decided then removeFromWorkingSet ws p else ws)

/-- Review-session state owned by the main loop: the working set (`images`)
and the carried batch (`chosen`), main.rs lines 104-142. -/
structure SessionState where
  images : List ℕ
  chosen : Option (List ℕ)

/-- Embeds the continue branch of the batch-complete prompt (main.rs lines
368-372): the carried batch is cleared, the working set untouched. -/
def continueStep (st : SessionState) : SessionState :=
  { st with chosen := none }

/-- Embeds the restart branch of the batch-complete prompt (main.rs lines
373-377): apart from the screen clear it does exactly what continue does. -/
def restartStep (st : SessionState) : SessionState :=
  { st with chosen := none }

/-- Removing one decided path from a duplicate-free working set removes
exactly one element. -/
lemma length_removeFromWorkingSet (ws : List ℕ) (p : ℕ)
    (hnd : ws.Nodup) (hmem : p ∈ ws) :
    (removeFromWorkingSet ws p).length = ws.length - 1 := by
  induction ws with
  | nil => cases hmem
  | cons a t ih =>
    rcases List.nodup_cons.mp hnd with ⟨hat, hnt⟩
    by_cases hap : a = p
    · subst hap
      have hall : t.filter (fun q => q != a) = t := by
        rw [List.filter_eq_self]
        intro q hq
        simp only [bne_iff_ne, ne_eq]
        intro hqa
        exact hat (hqa ▸ hq)
      simp [removeFromWorkingSet, hall]
    · have hpt : p ∈ t := by
        cases hmem with
        | head => exact absurd rfl hap
        | tail _ h => exact h
      have hlen : 1 ≤ t.length := List.length_pos.mpr (List.ne_nil_of_mem hpt)
      have iht := ih hnt hpt
      have hba : (a != p) = true := by simpa using hap
      simp only [removeFromWorkingSet, List.filter_cons, hba, if_true, List.length_cons] at iht ⊢
      omega

/-- C7 counterexample: `images.retain(|p| p != path)` removes **every** copy
of the decided path. With working set `[0, 0, 1, 2]` (reachable by passing
the same directory twice on the command line) and a completed batch `[0, 1, 2]`
in which all three slots were decided, the working set shrinks from 4 to 0 —
by 4, not by the 3 decided slots. -/
theorem c7_duplicate_paths_counterexample :
    (applyBatchDecisions [(0, true), (1, true), (2, true)] [0, 0, 1, 2]).length ≠
      ([0, 0, 1, 2] : List ℕ).length -
        (([(0, true), (1, true), (2, true)] : List (ℕ × Bool)).filter (fun s => s.2)).length := by
  decide

/-- C7 amended: provided the working set holds no duplicate paths (and the
batch's slots are distinct members of it, as sampling without replacement
guarantees), a completed batch shrinks the working set by exactly the number
of slots that received a Keep or Bin decision; the continue and restart
branches of the batch-complete prompt leave the working set untouched. -/
theorem c7_decided_slots_shrink_working_set
    (slots : List (ℕ × Bool)) (ws : List ℕ) (st : SessionState)
    (hnd : ws.Nodup) (hsn : (slots.map Prod.fst).Nodup)
    (hmem : ∀ q ∈ slots.map Prod.fst, q ∈ ws) :
    (applyBatchDecisions slots ws).length =
        ws.length - (slots.filter (fun s => s.2)).length ∧
      (continueStep st).images = st.images ∧ (restartStep st).images = st.images := by
  refine ⟨?_, rfl, rfl⟩
  induction slots generalizing ws with
  | nil => simp [applyBatchDecisions]
  | cons s rest ih =>
    obtain ⟨p, d⟩ := s
    simp only [List.map_cons, List.nodup_cons] at hsn
    obtain ⟨hps, hrest⟩ := hsn
    have hmem' : ∀ q ∈ rest.map Prod.fst, q ∈ ws := fun q hq => hmem q (by simp [hq])
    have hp : p ∈ ws := hmem p (by simp)
    cases d with
    | false =>
      simp only [applyBatchDecisions, if_neg, Bool.false_eq_true, not_false_eq_true,
        List.filter_cons]
      exact ih ws hnd hrest hmem'
    | true =>
      have hnd' : (removeFromWorkingSet ws p).Nodup := List.Nodup.filter _ hnd
      have hmem'' : ∀ q ∈ rest.map Prod.fst, q ∈ removeFromWorkingSet ws p := by
        intro q hq
        refine List.mem_filter.mpr ⟨hmem' q hq, ?_⟩
        simp only [bne_iff_ne, ne_eq]
        intro hqp
        exact hps (hqp ▸ hq)
      have hlen := length_removeFromWorkingSet ws p hnd hp
      have hw1 : 1 ≤ ws.length := List.length_pos.mpr (List.ne_nil_of_mem hp)
      have iht := ih (removeFromWorkingSet ws p) hnd' hrest hmem''
      simp only [applyBatchDecisions, if_pos, List.filter_cons, List.length_cons] at iht ⊢
      omega

/-- C7 witness: a duplicate-free working set `[0, 1, 2]` and a batch in which
slots 0 and 2 were decided and slot 1 was not: the working set shrinks from
3 to 1, and continue/restart leave a working set `[7]` alone. -/
theorem c7_shrink_witness :
    (applyBatchDecisions [(0, true), (1, false), (2, true)] [0, 1, 2]).length =
        ([0, 1, 2] : List ℕ).length -
          (([(0, true), (1, false), (2, true)] : List (ℕ × Bool)).filter (fun s => s.2)).length ∧
      (continueStep ⟨[7], none⟩).images = ([7] : List ℕ) ∧
      (restartStep ⟨[7], none⟩).images = ([7] : List ℕ) :=
  c7_decided_slots_shrink_working_set [(0, true), (1, false), (2, true)] [0, 1, 2]
    ⟨[7], none⟩ (by decide) (by decide) (by decide)

/-! ### Per-slot decision loop (main.rs lines 241-358) -/

/-- One keypress, parsed as the decision loop of main.rs lines 262-352 parses
it: Ctrl+L (code 12, line 266), capital I (line 288), lowercase i (line 297),
k/K (line 321), b/B together with whether `move_to_trash` succeeded
(lines 327-336), space or l (line 338), q/Q (line 343), and anything else
(line 348). -/
inductive SlotCmd where
  | ctrlL
  | infoAll
  | infoCurrent
  | keep
  | bin (trashOk : Bool)
  | preview
  | quit
  | invalid
deriving DecidableEq

/-- How the slot's inner prompt loop ends. -/
inductive SlotOutcome where
  | kept
  | binned
  | quitted
  | pending
deriving DecidableEq

/-- Embeds the inner prompt loop for one slot (main.rs lines 241-358) over the
stream of keypresses it will read: Ctrl+L redraws and re-prompts (line 283);
the two info commands block for one acknowledgement keypress (lines 293, 314)
and re-prompt; keep records the decision and leaves the loop (lines 321-326);
bin leaves the loop only when the trash call succeeds, otherwise it rings the
bell and re-prompts the same slot (lines 327-337); preview (line 338) and
invalid keys (line 348) re-prompt; quit tears the session down (line 343);
an exhausted stream is the `Err` branch of `read_single_char` (line 355),
which leaves the slot undecided. -/
def slotLoop : List SlotCmd → SlotOutcome
  | [] => .pending
  | .ctrlL :: rest => slotLoop rest
  | [.infoAll] => .pending
  | .infoAll :: _ :: rest => slotLoop rest
  | [.infoCurrent] => .pending
  | .infoCurrent :: _ :: rest => slotLoop rest
  | .keep :: _ => .kept
  | .bin true :: _ => .binned
  | .bin false :: rest => slotLoop rest
  | .preview :: rest => slotLoop rest
  | .quit :: _ => .quitted
  | .invalid :: rest => slotLoop rest

/-- A kept outcome can only come from an explicit keep keypress. -/
lemma slotLoop_kept_mem : ∀ cs : List SlotCmd, slotLoop cs = .kept → SlotCmd.keep ∈ cs := by
  intro cs
  induction cs using slotLoop.induct <;> simp_all [slotLoop]

/-- A binned outcome can only come from a bin keypress whose trash call
succeeded. -/
lemma slotLoop_binned_mem : ∀ cs : List SlotCmd, slotLoop cs = .binned → SlotCmd.bin true ∈ cs := by
  intro cs
  induction cs using slotLoop.induct <;> simp_all [slotLoop]

/-- C8: a bin keypress whose trash operation fails leaves the slot exactly
where it was — the loop continues on the same slot with the remaining input,
no decision is recorded (so by C7's removal bookkeeping the image stays in
the working set) — and a slot is only ever resolved as kept by an explicit
keep keypress and as binned by a successful bin keypress; a failed bin is
never converted into a keep. -/
theorem c8_failed_bin_reprompts_slot (cs rest : List SlotCmd) :
    slotLoop (.bin false :: rest) = slotLoop rest ∧
      (slotLoop cs = .kept → SlotCmd.keep ∈ cs) ∧
      (slotLoop cs = .binned → SlotCmd.bin true ∈ cs) :=
  ⟨rfl, slotLoop_kept_mem cs, slotLoop_binned_mem cs⟩

/-- C8 witness: with input stream `[bin-that-fails, keep]` the slot outcome is
the same as for `[keep]`, namely kept, and the keep keypress is in the
stream. -/
theorem c8_failed_bin_witness :
    slotLoop [.bin false, .keep] = slotLoop [.keep] ∧ SlotCmd.keep ∈ [SlotCmd.keep] :=
  ⟨(c8_failed_bin_reprompts_slot [SlotCmd.keep] [SlotCmd.keep]).1,
    (c8_failed_bin_reprompts_slot [SlotCmd.keep] [SlotCmd.keep]).2.1 (by decide)⟩

/-! ### Path abbreviation (term.rs lines 47-75) -/

/-- Embeds `abbreviate_path` (term.rs lines 47-75) on the path string itself,
modelled as a list of characters (`main` always calls it with an empty
`base_path`, for which the `strip_prefix` of lines 49-52 leaves the string
as-is; the Rust byte indexing coincides with character indexing on ASCII
paths). A string that fits is returned unchanged (line 58); otherwise the
code keeps `(max_width - 3 + 1) / 2` leading and `(max_width - 3) / 2`
trailing characters around a three-character `...` ellipsis (lines 62-74),
with the subtraction saturating. -/
def abbreviate_path (s : List Char) (maxWidth : ℕ) : List Char :=
  if s.length ≤ maxWidth then s
  else
    let avail := maxWidth - 3
    let startLen := (avail + 1) / 2
    let endLen := avail / 2
    let front := s.take (min startLen s.length)
    let back := if startLen < s.length then s.drop (s.length - endLen) else []
    front ++ ('.' :: '.' :: '.' :: []) ++ back

/-- C9 counterexample: for the four-character path `abcd` and `max_width = 2`
the rendered result is the bare ellipsis `...`, whose length 3 exceeds
`max_width`, and the original first and last characters are gone. -/
theorem c9_small_max_width_counterexample :
    2 < (['a', 'b', 'c', 'd'] : List Char).length ∧
      ¬ (abbreviate_path ['a', 'b', 'c', 'd'] 2).length ≤ 2 := by
  decide

/-- C9 amended: a path that fits within `max_width` is returned unchanged;
a longer path is abbreviated to at most `max_width` characters preserving the
original first and last characters around the ellipsis **provided
`max_width ≥ 5`** (below that the reserved three-character ellipsis leaves no
room for both a leading and a trailing character: the result is still
`start...end` but with `start` or `end` empty, and for `max_width < 3` the
bare `...` exceeds `max_width`). -/
theorem c9_abbreviate_path_bounds (s : List Char) (maxWidth : ℕ) :
    (s.length ≤ maxWidth → abbreviate_path s maxWidth = s) ∧
      (5 ≤ maxWidth → maxWidth < s.length →
        (abbreviate_path s maxWidth).length ≤ maxWidth ∧
          (abbreviate_path s maxWidth).head? = s.head? ∧
          (abbreviate_path s maxWidth).getLast? = s.getLast?) := by
  constructor
  · intro h
    simp [abbreviate_path, h]
  · intro h5 hlen
    have hnle : ¬ s.length ≤ maxWidth := by omega
    have hstart_lt : (maxWidth - 3 + 1) / 2 < s.length := by omega
    have hend_le : (maxWidth - 3) / 2 ≤ s.length := by omega
    have hstart_pos : 1 ≤ (maxWidth - 3 + 1) / 2 := by omega
    have hend_pos : 1 ≤ (maxWidth - 3) / 2 := by omega
    simp only [abbreviate_path, if_neg hnle, if_pos hstart_lt]
    refine ⟨?_, ?_, ?_⟩
    · simp only [List.length_append, List.length_take, List.length_drop, List.length_cons,
        List.length_nil]
      omega
    · have hs : s ≠ [] := by
        intro h
        rw [h] at hlen
        simp at hlen
      obtain ⟨a, t, rfl⟩ := List.exists_cons_of_ne_nil hs
      have hmin : min ((maxWidth - 3 + 1) / 2) (a :: t).length = (maxWidth - 3 + 1) / 2 := by
        simp only [List.length_cons] at hstart_lt ⊢
        omega
      rw [hmin]
      obtain ⟨k, hk⟩ : ∃ k, (maxWidth - 3 + 1) / 2 = k + 1 := ⟨_, (Nat.succ_pred_eq_of_pos hstart_pos).symm⟩
      rw [hk]
      simp [List.take_cons]
    · have hback : (s.drop (s.length - (maxWidth - 3) / 2)).length = (maxWidth - 3) / 2 := by
        simp only [List.length_drop]
        omega
      have hbne : s.drop (s.length - (maxWidth - 3) / 2) ≠ [] := by
        intro h
        rw [h] at hback
        simp at hback
        omega
      have hdb : ('.' :: '.' :: '.' :: []) ++ s.drop (s.length - (maxWidth - 3) / 2) ≠ [] := by
        simp
      rw [List.append_assoc, List.getLast?_append_of_ne_nil _ hdb,
        List.getLast?_append_of_ne_nil _ hbne]
      conv_rhs => rw [← List.take_append_drop (s.length - (maxWidth - 3) / 2) s]
      rw [List.getLast?_append_of_ne_nil _ hbne]

/-- C9 witness: the eight-character path `abcdefgh` at `max_width = 6` becomes
the six-character `ab...h`, preserving the first and last characters; its
length 8 is not within 6, so the unchanged case holds vacuously. -/
theorem c9_abbreviate_path_witness :
    (abbreviate_path ['a', 'b', 'c', 'd', 'e', 'f', 'g', 'h'] 6).length ≤ 6 ∧
      (abbreviate_path ['a', 'b', 'c', 'd', 'e', 'f', 'g', 'h'] 6).head? =
        (['a', 'b', 'c', 'd', 'e', 'f', 'g', 'h'] : List Char).head? ∧
      (abbreviate_path ['a', 'b', 'c', 'd', 'e', 'f', 'g', 'h'] 6).getLast? =
        (['a', 'b', 'c', 'd', 'e', 'f', 'g', 'h'] : List Char).getLast? :=
  (c9_abbreviate_path_bounds ['a', 'b', 'c', 'd', 'e', 'f', 'g', 'h'] 6).2
    (by norm_num) (by norm_num)

/-! ### Command-line argument parsing (main.rs lines 27-58) -/

/-- Decimal evaluation of a digit string, failing at the first non-digit. -/
def decimalValue : List Char → ℕ → Option ℕ
  | [], acc => some acc
  | c :: rest, acc =>
      if c.isDigit then decimalValue rest (acc * 10 + (c.toNat - 48)) else none

/-- Models `str::parse::<usize>()` as used at main.rs line 38 on the inputs
the loop can see: a nonempty all-digit string parses to its decimal value,
anything else fails. (The optional leading `+` and the overflow bound of the
Rust parser are immaterial to the properties proved here.) -/
def parse_usize (s : String) : Option ℕ :=
  if s.data.isEmpty then none else decimalValue s.data 0

/-- Models `arg.starts_with('-')` (main.rs line 44). -/
def starts_with_dash (s : String) : Bool :=
  match s.data with
  | '-' :: _ => true
  | _ => false

/-- Parsed command-line configuration (main.rs lines 28-30). -/
structure CliArgs where
  depth : ℕ
  targetPaths : List String
  testSearch : Bool

/-- Embeds the argument loop of `main` (main.rs lines 33-53) over the
arguments after the program name, carrying the mutable `depth`,
`target_paths` and `test_search` of lines 28-30: `-d`/`--depth` consumes the
following argument when there is one and sets
`depth = args[i].parse().unwrap_or(1)` (lines 35-39, so an unparseable value
sets the default 1, and a trailing flag with no value changes nothing);
`--test-search` sets the flag (line 41); an argument not starting with `-`
is collected as a target path (line 44); any other argument hits the
`Unknown option` arm and exits with status 1 (lines 47-50), modelled as the
error case. -/
def parse_args : List String → ℕ → List String → Bool → Except Unit CliArgs
  | [], depth, paths, ts => .ok ⟨depth, paths, ts⟩
  | arg :: rest, depth, paths, ts =>
      if arg = "-d" ∨ arg = "--depth" then
        match rest with
        | [] => .ok ⟨depth, paths, ts⟩
        | v :: rest' => parse_args rest' ((parse_usize v).getD 1) paths ts
      else if arg = "--test-search" then
        parse_args rest depth paths true
      else if starts_with_dash arg = false then
        parse_args rest depth (paths ++ [arg]) ts
      else
        .error ()

/-- CLI surface of `main`: arguments after the program name, starting from
the defaults `depth = 1`, no paths, `test_search = false`. -/
def parse_cli (args : List String) : Except Unit CliArgs :=
  parse_args args 1 [] false

/-- C10: a `-d`/`--depth` flag whose value does not parse as a non-negative
integer, or that sits last with no value at all, is not rejected: the
argument loop completes without the usage-error exit and the depth used is
the default 1. -/
theorem c10_bad_depth_value_defaults_to_one (v p : String)
    (hv : parse_usize v = none) (hp : starts_with_dash p = false) :
    parse_cli ["-d", v, p] = .ok ⟨1, [p], false⟩ ∧
      parse_cli [p, "-d"] = .ok ⟨1, [p], false⟩ := by
  have h1 : ¬(p = "-d" ∨ p = "--depth") := by
    rintro (rfl | rfl) <;> simp [starts_with_dash] at hp
  have h2 : p ≠ "--test-search" := by
    rintro rfl
    simp [starts_with_dash] at hp
  refine ⟨?_, ?_⟩
  · simp [parse_cli, parse_args, hv, h1, h2, hp]
  · simp [parse_cli, parse_args, h1, h2, hp]

/-- C10 witness: `-d abc pics` and `pics -d` both parse successfully with
depth 1 and the single target path `pics`. -/
theorem c10_bad_depth_witness :
    parse_cli ["-d", "abc", "pics"] = .ok ⟨1, ["pics"], false⟩ ∧
      parse_cli ["pics", "-d"] = .ok ⟨1, ["pics"], false⟩ :=
  c10_bad_depth_value_defaults_to_one "abc" "pics" (by decide) (by decide)

end PiccyPicky
